import Mathlib

set_option maxRecDepth 16000

/-!
Shallow embedding of the OmegaZero self-play learning core: the move codec
of eval_scripts/game.py and the MCTS / self-play engine of
eval_scripts/search.py. Machine integers become Int (Python integers are
unbounded, and the Lean operations `/` and `%` on Int agree with the Python
floor semantics for the positive divisors used here, including the bit
tricks `sq & 7` and `sq >> 3`). Floating point values become rationals.
Fallible code returns Except String. The external collaborators (the
python-chess rules engine and the evaluation model, out of scope per the
specification) are abstracted as an interface record of oracle functions.
-/

/-- Piece types, with values matching the python-chess constants
PAWN=1, KNIGHT=2, BISHOP=3, ROOK=4, QUEEN=5, KING=6. -/
inductive Piece where
  | pawn
  | knight
  | bishop
  | rook
  | queen
  | king
deriving DecidableEq, Repr

/-- Numeric value of a piece type (the python-chess integer constant). -/
def Piece.val : Piece → Int
  | .pawn => 1
  | .knight => 2
  | .bishop => 3
  | .rook => 4
  | .queen => 5
  | .king => 6

/-- Mirror of chess.Move: origin square, destination square (LERF square
indices) and an optional promotion piece type. -/
structure Move where
  from_square : Int
  to_square : Int
  promotion : Option Piece
deriving DecidableEq, Repr

/-- game.get_file: the file of a LERF indexed square, `sq & 7` in the
source; for integers this equals `sq % 8` (Python semantics, matched by
Int.emod for the positive modulus 8). -/
def get_file (sq : Int) : Int := sq % 8

/-- game.get_rank: the rank of a LERF indexed square, `sq >> 3` in the
source; for integers this equals floor division `sq / 8` (matched by
Int.ediv for the positive divisor 8). -/
def get_rank (sq : Int) : Int := sq / 8

/-- Ray directions of game.__RayDir with their IntEnum values. -/
inductive RayDir where
  | NW
  | N
  | NE
  | E
  | SE
  | S
  | SW
  | W
deriving DecidableEq, Repr

/-- IntEnum value of a ray direction: NW, N, NE, E, SE, S, SW, W = 0..7. -/
def RayDir.val : RayDir → Int
  | .NW => 0
  | .N => 1
  | .NE => 2
  | .E => 3
  | .SE => 4
  | .S => 5
  | .SW => 6
  | .W => 7

/-- Knight directions of game.__KnightDir with their IntEnum values. -/
inductive KnightDir where
  | NNE
  | NEE
  | SEE
  | SSE
  | SSW
  | SWW
  | NWW
  | NNW
deriving DecidableEq, Repr

/-- IntEnum value of a knight direction: NNE..NNW = 0..7. -/
def KnightDir.val : KnightDir → Int
  | .NNE => 0
  | .NEE => 1
  | .SEE => 2
  | .SSE => 3
  | .SSW => 4
  | .SWW => 5
  | .NWW => 6
  | .NNW => 7

/-- Result of the direction classification: a ray direction or a knight
direction. -/
inductive MoveDir where
  | ray (d : RayDir)
  | knight (d : KnightDir)
deriving DecidableEq, Repr

/-- game.get_move_dir (nested inside get_move_idx): classify the square
delta of a move. Returns none when the delta is zero (Python returns None)
and raises when no direction matches. The Python fallthrough is rendered as
a conditional chain: a same-diagonal delta divisible by 7 is classified
NW/SE before the NE/SW divisibility-by-9 test runs, and a same-diagonal
delta divisible by neither falls through to the orthogonal and knight
checks, exactly as in the source. -/
def get_move_dir (start_sq target_sq : Int) : Except String (Option MoveDir) :=
  let sq_diff := target_sq - start_sq
  if sq_diff = 0 then .ok none
  else
    let start_rank := get_rank start_sq
    let start_file := get_file start_sq
    let target_rank := get_rank target_sq
    let target_file := get_file target_sq
    if (start_rank - start_file = target_rank - target_file ∨
        start_rank + start_file = target_rank + target_file) ∧ sq_diff % 7 = 0 then
      .ok (some (.ray (if 0 < sq_diff then .NW else .SE)))
    else if (start_rank - start_file = target_rank - target_file ∨
        start_rank + start_file = target_rank + target_file) ∧ sq_diff % 9 = 0 then
      .ok (some (.ray (if 0 < sq_diff then .NE else .SW)))
    else if sq_diff % 8 = 0 then
      .ok (some (.ray (if 0 < sq_diff then .N else .S)))
    else if start_rank = target_rank then
      .ok (some (.ray (if 0 < sq_diff then .E else .W)))
    else if sq_diff % 17 = 0 then
      .ok (some (.knight (if 0 < sq_diff then .NNE else .SSW)))
    else if sq_diff % 15 = 0 then
      .ok (some (.knight (if 0 < sq_diff then .NNW else .SSE)))
    else if sq_diff % 10 = 0 then
      .ok (some (.knight (if 0 < sq_diff then .NEE else .SWW)))
    else if sq_diff % 6 = 0 then
      .ok (some (.knight (if 0 < sq_diff then .NWW else .SEE)))
    else .error "Unable to compute move direction"

/-- Ray-move arm of game.get_move_idx: queen promotions and plain ray moves
use plane = dir * 7 + (num_sq_moved - 1), id = plane * 64 + from_square. -/
def rayEncode (d : RayDir) (move : Move) : Except String Int :=
  let start_rank := get_rank move.from_square
  let target_rank := get_rank move.to_square
  let num_sq_moved :=
    if start_rank ≠ target_rank then |target_rank - start_rank|
    else |get_file move.to_square - get_file move.from_square|
  .ok ((d.val * 7 + (num_sq_moved - 1)) * 64 + move.from_square)

/-- Underpromotion arm of game.get_move_idx: plane = 64 + dir_idx * 3 +
(promotion piece value - KNIGHT), with dir_idx 2 for NE/SW, 1 for N/S and
0 for NW/SE; any other ray direction raises. -/
def underpromotionEncode (d : RayDir) (p : Piece) (from_sq : Int) : Except String Int :=
  let underpromotion_idx := p.val - 2
  match d with
  | .NE | .SW => .ok ((64 + 2 * 3 + underpromotion_idx) * 64 + from_sq)
  | .N | .S => .ok ((64 + 1 * 3 + underpromotion_idx) * 64 + from_sq)
  | .NW | .SE => .ok ((64 + 0 * 3 + underpromotion_idx) * 64 + from_sq)
  | .E | .W => .error "Invalid move passed in"

/-- game.get_move_idx: encode a chess move as an action index. The encoding
is a pure function of origin, destination and promotion piece. -/
def get_move_idx (move : Move) : Except String Int :=
  match get_move_dir move.from_square move.to_square with
  | .error e => .error e
  | .ok none => .error "Unable to map move to index"
  | .ok (some (.knight d)) => .ok ((56 + d.val) * 64 + move.from_square)
  | .ok (some (.ray d)) =>
    match move.promotion with
    | some p =>
      if p ≠ Piece.queen then underpromotionEncode d p move.from_square
      else rayEncode d move
    | none => rayEncode d move

/-- RAY_COMPASS_ROSE of game.get_move: single-step square increments for
NW, N, NE, E, SE, S, SW, W, indexed by direction value. -/
def rayCompassRose (dir_idx : Int) : Int :=
  if dir_idx = 0 then 7
  else if dir_idx = 1 then 8
  else if dir_idx = 2 then 9
  else if dir_idx = 3 then 1
  else if dir_idx = 4 then -7
  else if dir_idx = 5 then -8
  else if dir_idx = 6 then -9
  else -1

/-- KNIGHT_COMPASS_ROSE of game.get_move: square increments for NNE, NEE,
SEE, SSE, SSW, SWW, NWW, NNW, indexed by direction value. -/
def knightCompassRose (dir_idx : Int) : Int :=
  if dir_idx = 0 then 17
  else if dir_idx = 1 then 10
  else if dir_idx = 2 then -6
  else if dir_idx = 3 then -15
  else if dir_idx = 4 then -17
  else if dir_idx = 5 then -10
  else if dir_idx = 6 then 6
  else 15

/-- game.get_move: decode an action index into a move. The board is
consulted only through piece_at on the origin square, to infer queen
promotions for ray moves that land on rank 1 or 8. A None piece_at there
is rendered as an error (the Python attribute access raises). -/
def get_move (piece_at : Int → Option Piece) (move_idx : Int) : Except String Move :=
  let from_square := move_idx % 64
  let plane_idx := move_idx / 64
  if 0 ≤ plane_idx ∧ plane_idx < 56 then
    let dir_idx := plane_idx / 7
    let num_sq_moved := plane_idx % 7 + 1
    let step_inc := rayCompassRose dir_idx
    let to_square := from_square + num_sq_moved * step_inc
    if get_rank to_square = 7 ∨ get_rank to_square = 0 then
      match piece_at from_square with
      | none => .error "AttributeError: NoneType has no attribute piece_type"
      | some p =>
        if p = Piece.pawn then .ok ⟨from_square, to_square, some Piece.queen⟩
        else .ok ⟨from_square, to_square, none⟩
    else .ok ⟨from_square, to_square, none⟩
  else if 64 ≤ plane_idx ∧ plane_idx < 73 then
    let dir_idx := (plane_idx - 64) / 3
    let start_rank := get_rank from_square
    let dir : RayDir :=
      if dir_idx = 2 then (if start_rank = 6 then .NE else .SW)
      else if dir_idx = 1 then (if start_rank = 6 then .N else .S)
      else (if start_rank = 6 then .NW else .SE)
    let to_square := from_square + rayCompassRose dir.val
    let promotion_idx := (plane_idx - 64) % 3
    let promotion : Piece :=
      if promotion_idx = 0 then .knight
      else if promotion_idx = 1 then .bishop
      else .rook
    .ok ⟨from_square, to_square, some promotion⟩
  else if 56 ≤ plane_idx ∧ plane_idx < 64 then
    let to_square := from_square + knightCompassRose (plane_idx - 56)
    .ok ⟨from_square, to_square, none⟩
  else .error "Invalid move index passed in"


/-- Number of entries in the fixed action space (_NUM_ACTIONS). -/
def NUM_ACTIONS : Nat := 4672

/-- Sum of a 4672-entry table (np.sum over a stats row). -/
def rowSum (f : Int → ℚ) : ℚ := ∑ i ∈ Finset.range NUM_ACTIONS, f (i : Int)

/-- L1 norm of a 4672-entry table (np.linalg.norm with ord=1). -/
def rowSumAbs (f : Int → ℚ) : ℚ := ∑ i ∈ Finset.range NUM_ACTIONS, |f (i : Int)|

/-- Interface to the external collaborators of search.py: the python-chess
rules engine (ended, outcome().winner, turn, zobrist_hash, legal_moves,
piece_at, push, Board()) and the game-state tensor construction. With
_T = 1 the tensor written by init_game_state and update_game_state is a
pure function of the current position (the full time block and the full
constant block are overwritten from the position each time), so the tensor
encoder __get_time_plane / __get_constant_planes is abstracted as a single
pure function encode. sqrtQ abstracts math.sqrt, used only inside the PUCT
selection formula. -/
structure RulesEngine (Pos Tensor : Type) where
  ended : Pos → Bool
  winner : Pos → Option Bool
  turn : Pos → Bool
  zobrist_hash : Pos → Nat
  legal_moves : Pos → List Move
  piece_at : Pos → Int → Option Piece
  push : Pos → Move → Pos
  encode : Pos → Tensor
  start : Pos
  sqrtQ : ℚ → ℚ

/-- Sequential encoding of a list of legal moves, the comprehension
`[get_move_idx(move) for move in s.legal_moves]` of game.generate_moves;
an encoding error propagates as in Python. -/
def encodeMoves : List Move → Except String (List Int)
  | [] => .ok []
  | m :: rest =>
    match get_move_idx m with
    | .error e => .error e
    | .ok i =>
      match encodeMoves rest with
      | .error e => .error e
      | .ok is => .ok (i :: is)

/-- game.generate_moves: the legal moves of a position, as action indices. -/
def generate_moves {Pos Tensor : Type} (g : RulesEngine Pos Tensor) (pos : Pos) :
    Except String (List Int) :=
  encodeMoves (g.legal_moves pos)

/-- Python truthiness of the bound-method expression `position.is_legal` in
search.update_game_state: the attribute is a method object, not a call, so
it is always truthy and `not position.is_legal` is always False. -/
def positionIsLegalTruthy : Bool := true

/-- search.update_game_state: decode the action index, push the resulting
move onto the position, and refresh the game-state tensor. With _T = 1 the
time-plane shift loop `for time_idx in np.arange(_T - 1)` has zero
iterations. The legality test `if not position.is_legal` compares a bound
method object, which is always truthy, so the ValueError branch is dead
code; the decoded move is applied unconditionally. The Python function
mutates position and game_state in place; here the updated pair is
returned. -/
def update_game_state {Pos Tensor : Type} (g : RulesEngine Pos Tensor)
    (pos : Pos) (a : Int) : Except String (Pos × Tensor) :=
  match get_move (g.piece_at pos) a with
  | .error e => .error e
  | .ok move =>
    let pos2 := g.push pos move
    if !positionIsLegalTruthy then .error "Played move is illegal"
    else .ok (pos2, g.encode pos2)

/-- Tables of the __MCTS class: Q, N and P associate a zobrist hash with a
4672-entry row of action statistics, and visited_nodes records the expanded
hashes. Python stores the rows in dictionaries keyed by hash; rows absent
from the dictionaries are modelled as all-zero rows (the source only reads
rows of hashes it has inserted). -/
structure MCTSState where
  Q : Nat → Int → ℚ
  N : Nat → Int → ℚ
  P : Nat → Int → ℚ
  visited : List Nat

/-- Fresh search state of __MCTS.__init__: empty tables. -/
def MCTSState.fresh : MCTSState :=
  { Q := fun _ _ => 0, N := fun _ _ => 0, P := fun _ _ => 0, visited := [] }

/-- Overwrite one whole row of a stats table (e.g. `self.Q[hash] = ...`). -/
def putRow (t : Nat → Int → ℚ) (h : Nat) (row : Int → ℚ) : Nat → Int → ℚ :=
  fun h2 => if h2 = h then row else t h2

/-- Overwrite one entry of a stats table (e.g. `self.Q[hash][a] = ...`). -/
def putEntry (t : Nat → Int → ℚ) (h : Nat) (a : Int) (x : ℚ) : Nat → Int → ℚ :=
  fun h2 a2 => if h2 = h ∧ a2 = a then x else t h2 a2

/-- Selection loop of __MCTS.search: scan the action list, keeping the
first action whose upper confidence bound strictly exceeds the running
maximum. best_a starts at -1 and max_U at negative infinity, modelled as
none so that any bound beats it. -/
def selectBest (u : Int → ℚ) (actions : List Int) : Int :=
  (actions.foldl
    (fun acc a =>
      match acc.1 with
      | none => (some (u a), a)
      | some m => if m < u a then (some (u a), a) else acc)
    ((none : Option ℚ), (-1 : Int))).2

/-- Result of one __MCTS.search call: the returned value (or the propagated
exception) together with the final contents of the position, tensor and
search-state arguments, which Python mutates in place. -/
structure SearchResult (Pos Tensor : Type) where
  val : Except String ℚ
  pos : Pos
  s : Tensor
  st : MCTSState

/-- Backpropagation step of __MCTS.search:
Q[s][a] = (N[s][a] * Q[s][a] + v) / (N[s][a] + 1); N[s][a] += 1. -/
def backprop (st : MCTSState) (h : Nat) (a : Int) (v : ℚ) : MCTSState :=
  let n := st.N h a
  { st with
    Q := putEntry st.Q h a ((n * st.Q h a + v) / (n + 1))
    N := putEntry st.N h a (n + 1) }

/-- Terminal arm of __MCTS.search: return the negated reward of the player
to move without touching the tables. The Python test `if winner:` is truthy
only for a white winner, chess.WHITE being True; a black winner (False) and
a draw (None) both fall into the _DRAW_REWARD branch. -/
def searchTerminal {Pos Tensor : Type} (g : RulesEngine Pos Tensor)
    (pos : Pos) (s : Tensor) (st : MCTSState) : SearchResult Pos Tensor :=
  let winner := g.winner pos
  if winner = some true then
    let reward : ℚ := if winner = some (g.turn pos) then 1 else -1
    ⟨.ok (-reward), pos, s, st⟩
  else ⟨.ok 0, pos, s, st⟩

/-- Expansion arm of __MCTS.search: predict (P, v) from the tensor, install
the prior row and zero Q and N rows for the hash, mark it visited and
return the negated value estimate. -/
def searchExpand {Pos Tensor : Type} (g : RulesEngine Pos Tensor)
    (model : Tensor → (Int → ℚ) × ℚ) (pos : Pos) (s : Tensor) (st : MCTSState) :
    SearchResult Pos Tensor :=
  let h := g.zobrist_hash pos
  let pv := model s
  ⟨.ok (-pv.2), pos, s,
    { Q := putRow st.Q h (fun _ => 0)
      N := putRow st.N h (fun _ => 0)
      P := putRow st.P h pv.1
      visited := h :: st.visited }⟩

/-- Selection arm of __MCTS.search, parametrized by the recursive call rec:
pick the action maximizing the upper confidence bound over the legal
actions, advance the position and tensor with update_game_state, recurse,
then backpropagate the child value. Exceptions propagate, and the in-place
mutations performed so far survive them. N_sum is recomputed inside the
Python selection loop, but N is not written there, so the value is
loop-invariant and computed once. -/
def searchBackprop {Pos Tensor : Type} (h : Nat) (a : Int)
    (r : SearchResult Pos Tensor) : SearchResult Pos Tensor :=
  match r.val with
  | .error e => ⟨.error e, r.pos, r.s, r.st⟩
  | .ok v => ⟨.ok (-v), r.pos, r.s, backprop r.st h a v⟩

/-- Child descent of __MCTS.search for a chosen action a: advance the
position and tensor with update_game_state, recurse, then backpropagate;
a decoding exception propagates with the state unchanged. -/
def searchChild {Pos Tensor : Type} (g : RulesEngine Pos Tensor)
    (rec : Pos → Tensor → MCTSState → SearchResult Pos Tensor)
    (h : Nat) (pos : Pos) (s : Tensor) (st : MCTSState) (a : Int) :
    SearchResult Pos Tensor :=
  match update_game_state g pos a with
  | .error e => ⟨.error e, pos, s, st⟩
  | .ok (pos2, s2) => searchBackprop h a (rec pos2 s2 st)

/-- Selection dispatch of __MCTS.search: pick the action maximizing the
upper confidence bound over the legal actions and descend into it. -/
def searchSelect {Pos Tensor : Type} (g : RulesEngine Pos Tensor) (c_puct : ℚ)
    (rec : Pos → Tensor → MCTSState → SearchResult Pos Tensor)
    (pos : Pos) (s : Tensor) (st : MCTSState) : SearchResult Pos Tensor :=
  match generate_moves g pos with
  | .error e => ⟨.error e, pos, s, st⟩
  | .ok actions =>
    let h := g.zobrist_hash pos
    let n_sum := rowSum (st.N h)
    let u : Int → ℚ := fun a =>
      st.Q h a + c_puct * st.P h a * g.sqrtQ n_sum / (1 + st.N h a)
    searchChild g rec h pos s st (selectBest u actions)

/-- __MCTS.search: dispatch on terminal / expanded / unexpanded, recursing
through searchSelect on expanded nodes. The fuel argument bounds the
recursion depth (an artifact of the embedding; Python recurses until the
game ends) and its exhaustion is reported as an error. -/
def search {Pos Tensor : Type} (g : RulesEngine Pos Tensor)
    (model : Tensor → (Int → ℚ) × ℚ) (c_puct : ℚ)
    (fuel : Nat) (pos : Pos) (s : Tensor) (st : MCTSState) : SearchResult Pos Tensor :=
  if g.ended pos then searchTerminal g pos s st
  else if g.zobrist_hash pos ∈ st.visited then
    match fuel with
    | 0 => ⟨.error "search fuel exhausted", pos, s, st⟩
    | fuel2 + 1 => searchSelect g c_puct (search g model c_puct fuel2) pos s st
  else searchExpand g model pos s st

/-- Unconditional unfolding equation for search (the automatically
generated equations are split on the fuel constructor). -/
theorem search_unfold {Pos Tensor : Type} (g : RulesEngine Pos Tensor)
    (model : Tensor → (Int → ℚ) × ℚ) (c_puct : ℚ)
    (fuel : Nat) (pos : Pos) (s : Tensor) (st : MCTSState) :
    search g model c_puct fuel pos s st =
      if g.ended pos then searchTerminal g pos s st
      else if g.zobrist_hash pos ∈ st.visited then
        match fuel with
        | 0 => ⟨.error "search fuel exhausted", pos, s, st⟩
        | fuel2 + 1 => searchSelect g c_puct (search g model c_puct fuel2) pos s st
      else searchExpand g model pos s st := by
  cases fuel <;> rfl

/-- __MCTS.get_policy: pi = P[hash] / N_sum (the prior row, divided by the
total visit count), then illegal entries are zeroed and the vector is
renormalized by its L1 norm. -/
def get_policy {Pos Tensor : Type} (g : RulesEngine Pos Tensor)
    (st : MCTSState) (pos : Pos) : Except String (Int → ℚ) :=
  let h := g.zobrist_hash pos
  let n_sum := rowSum (st.N h)
  let pi0 : Int → ℚ := fun a => st.P h a / n_sum
  match generate_moves g pos with
  | .error e => .error e
  | .ok legal_idx_list =>
    let pi1 : Int → ℚ := fun a => if a ∈ legal_idx_list then pi0 a else 0
    let norm := rowSumAbs pi1
    .ok (fun a => pi1 a / norm)

/-- Outcome of the inner simulation loop of self_play
(`for _ in np.arange(num_sims): mcts.search(search_position, s, model)`):
the first exception aborts the loop; the mutated position, tensor and
search state survive in either case. -/
structure SimLoopResult (Pos Tensor : Type) where
  err : Option String
  pos : Pos
  s : Tensor
  st : MCTSState

/-- The num_sims successive search calls of one self_play ply. Each call
receives the position, tensor and state objects as the previous call left
them; nothing is reset between iterations. -/
def searchIter {Pos Tensor : Type} (g : RulesEngine Pos Tensor)
    (model : Tensor → (Int → ℚ) × ℚ) (c_puct : ℚ) (fuel : Nat) :
    Nat → Pos → Tensor → MCTSState → SimLoopResult Pos Tensor
  | 0, pos, s, st => ⟨none, pos, s, st⟩
  | n + 1, pos, s, st =>
    let r := search g model c_puct fuel pos s st
    match r.val with
    | .error e => ⟨some e, r.pos, r.s, r.st⟩
    | .ok _ => searchIter g model c_puct fuel n r.pos r.s r.st

/-- search.__assign_rewards: overwrite the player-to-move marker of each
example with the reward. `if winner:` is truthy only when the winner is
white (True); a black winner (False) falls into the draw branch and every
example receives 0. When white wins, examples whose marker equals the
winner get _WIN_REWARD = 1 and the rest _LOSS_REWARD = -1. -/
def assign_rewards {A : Type} (training_examples : List (A × Bool))
    (winner : Option Bool) : List (A × Int) :=
  training_examples.map fun ex =>
    if winner = some true then
      (ex.1, if some ex.2 = winner then 1 else -1)
    else (ex.1, 0)

/-- search.init_game_state: the starting position and its tensor. -/
def init_game_state {Pos Tensor : Type} (g : RulesEngine Pos Tensor) : Pos × Tensor :=
  (g.start, g.encode g.start)

/-- Main loop of search.self_play. Per ply: run num_sims searches from a
copy of the position (value semantics renders `position.copy()` as reuse of
the same value; the tensor s is NOT copied and is shared between the
simulations and the main loop, so the simulations leave s mutated), read
the policy at the original position, append a training example holding the
policy and the player to move, sample an action, apply it with
update_game_state, and stop when the game has ended. Each appended Python
example holds a reference to the single tensor object s; the tensor value
is therefore attached only on return, when the final contents of s are
paired with every recorded example. plyFuel bounds the number of plies (an
embedding artifact; Python loops until the rules engine reports the end of
the game). -/
def selfPlayLoop {Pos Tensor : Type} (g : RulesEngine Pos Tensor)
    (model : Tensor → (Int → ℚ) × ℚ) (choice : (Int → ℚ) → Int) (c_puct : ℚ)
    (num_sims : Nat) (fuel : Nat) :
    Nat → Pos → Tensor → MCTSState → List ((Int → ℚ) × Bool) →
    Except String (Tensor × Option Bool × List ((Int → ℚ) × Bool))
  | 0, _, _, _, _ => .error "self-play ply fuel exhausted"
  | plyFuel + 1, pos, s, st, training_examples =>
    let r := searchIter g model c_puct fuel num_sims pos s st
    match r.err with
    | some e => .error e
    | none =>
      match get_policy g r.st pos with
      | .error e => .error e
      | .ok pi =>
        let examples2 := training_examples ++ [(pi, g.turn pos)]
        let a := choice pi
        match update_game_state g pos a with
        | .error e => .error e
        | .ok (pos2, s2) =>
          if g.ended pos2 then .ok (s2, g.winner pos2, examples2)
          else selfPlayLoop g model choice c_puct num_sims fuel plyFuel pos2 s2 r.st examples2

/-- search.self_play: reject num_sims < 2, then run the episode loop from
the initial game state and a fresh __MCTS instance, and resolve the
recorded examples with __assign_rewards at the end. Each returned example
is (tensor, policy vector, reward); all examples share the one tensor
object, whose final value is paired with each of them. choice abstracts
np.random.choice over the policy distribution. -/
def self_play {Pos Tensor : Type} (g : RulesEngine Pos Tensor)
    (model : Tensor → (Int → ℚ) × ℚ) (choice : (Int → ℚ) → Int) (c_puct : ℚ)
    (num_sims : Int) (fuel plyFuel : Nat) :
    Except String (List (Tensor × (Int → ℚ) × Int)) :=
  if num_sims < 2 then .error "num_sims must be at least 2"
  else
    let ps := init_game_state g
    match selfPlayLoop g model choice c_puct num_sims.toNat fuel plyFuel ps.1 ps.2
        MCTSState.fresh [] with
    | .error e => .error e
    | .ok (sFinal, winner, examples) =>
      .ok ((assign_rewards examples winner).map fun e => (sFinal, e.1, e.2))

deriving instance DecidableEq for Except

/-- Minimal concrete instantiation of the rules-engine interface: positions
are ply counters, the game ends after one ply with a white win (the side
that is to move at ply 0 is rendered as white/True), the only legal move is
the pawn push e2e3 (action index 460), every square holds a pawn, and the
tensor encoding of a position is the ply counter itself. -/
def toyG : RulesEngine Nat Nat where
  ended := fun p => decide (1 ≤ p)
  winner := fun p => if 1 ≤ p then some true else none
  turn := fun p => decide (p = 0)
  zobrist_hash := fun p => p
  legal_moves := fun _ => [⟨12, 20, none⟩]
  piece_at := fun _ _ => some Piece.pawn
  push := fun p _ => p + 1
  encode := fun p => p
  start := 0
  sqrtQ := fun _ => 0

/-- Evaluation model stub: uniform positive priors and value estimate 0. -/
def toyModel : Nat → (Int → ℚ) × ℚ := fun _ => (fun _ => 1, 0)

/-- Sampler stub for np.random.choice: always picks action 460. -/
def toyChoice : (Int → ℚ) → Int := fun _ => 460

/-- C1: the claim that decoding the encoding of every legal move returns
that move fails on the long NE diagonal. The bishop move a1h8 (squares 0
to 63, delta 63) lies on a same-rank-minus-file diagonal, but 63 is
divisible by 7, so get_move_dir classifies it NW before the
divisibility-by-9 NE test is reached; the move encodes to action 384,
which decodes to a1b7 (squares 0 to 49), a different move. -/
theorem c1_roundtrip_fails_on_long_diagonal :
    get_move_idx ⟨0, 63, none⟩ = .ok 384 ∧
    get_move (fun _ => some Piece.bishop) 384 = .ok ⟨0, 49, none⟩ ∧
    (Move.mk 0 49 none ≠ Move.mk 0 63 none) :=
  ⟨rfl, rfl, by decide⟩

/-- C4: __assign_rewards treats a black winner (chess.BLACK is False,
falsy) as a draw. With winner black, the example recorded with black to
move receives 0, not the +1 the claim demands for the winner, and the
white example also receives 0 instead of -1; with winner white the claimed
assignment does hold (+1 to the white-to-move example, -1 to the other). -/
theorem c4_black_win_rewards_zeroed :
    (assign_rewards [((), true), ((), false)] (some false)).map Prod.snd = [0, 0] ∧
    (assign_rewards [((), true), ((), false)] (some true)).map Prod.snd = [1, -1] :=
  ⟨rfl, rfl⟩

/-- C9: update_game_state never rejects an illegal decoded move: the test
`if not position.is_legal` inspects a bound method object, which is always
truthy, and it runs only after the move was already pushed. Concretely,
action 588 decodes (in the toy instance, whose legal-move list is just
e2e3) to the triple pawn step e2e5, which is not legal, yet
update_game_state applies it and returns normally. -/
theorem c9_illegal_move_not_rejected :
    get_move (toyG.piece_at 0) 588 = .ok ⟨12, 36, none⟩ ∧
    (Move.mk 12 36 none ∉ toyG.legal_moves 0) ∧
    update_game_state toyG 0 588 = .ok (1, 1) :=
  ⟨rfl, by decide, rfl⟩

/-- C7: for a pawn on rank 7 (rank index 6) able to promote, the queen
promotion and the three underpromotions to the same destination yield four
pairwise distinct action ids; the queen promotion lands in an ordinary ray
plane (0..55) and the underpromotions in three distinct underpromotion
planes (64..72). The destination is one square forward, or one forward
diagonal step guarded by the board edge. -/
theorem c7_promotion_ids_distinct (f t : Int) (hf : f / 8 = 6)
    (hd : t - f = 8 ∨ (t - f = 7 ∧ f % 8 ≠ 0) ∨ (t - f = 9 ∧ f % 8 ≠ 7)) :
    ∃ pq pn pb pr : Int,
      get_move_idx ⟨f, t, some Piece.queen⟩ = .ok (pq * 64 + f) ∧
      get_move_idx ⟨f, t, some Piece.knight⟩ = .ok (pn * 64 + f) ∧
      get_move_idx ⟨f, t, some Piece.bishop⟩ = .ok (pb * 64 + f) ∧
      get_move_idx ⟨f, t, some Piece.rook⟩ = .ok (pr * 64 + f) ∧
      0 ≤ pq ∧ pq ≤ 55 ∧
      64 ≤ pn ∧ pn ≤ 72 ∧ 64 ≤ pb ∧ pb ≤ 72 ∧ 64 ≤ pr ∧ pr ≤ 72 ∧
      pn ≠ pb ∧ pn ≠ pr ∧ pb ≠ pr ∧
      pq * 64 + f ≠ pn * 64 + f ∧ pq * 64 + f ≠ pb * 64 + f ∧
      pq * 64 + f ≠ pr * 64 + f ∧ pn * 64 + f ≠ pb * 64 + f ∧
      pn * 64 + f ≠ pr * 64 + f ∧ pb * 64 + f ≠ pr * 64 + f := by
  have h1 : 48 ≤ f := by omega
  have h2 : f < 56 := by omega
  rcases hd with hd | ⟨hd, hne⟩ | ⟨hd, hne⟩
  · have ht : t = f + 8 := by omega
    subst ht
    interval_cases f <;> exact ⟨7, 67, 68, 69, by decide⟩
  · have ht : t = f + 7 := by omega
    subst ht
    interval_cases f <;>
      first
        | exact ⟨0, 64, 65, 66, by decide⟩
        | exact absurd (by decide) hne
  · have ht : t = f + 9 := by omega
    subst ht
    interval_cases f <;>
      first
        | exact ⟨14, 70, 71, 72, by decide⟩
        | exact absurd (by decide) hne

/-- C7 witness: the white pawn push a7a8 (squares 48 to 56) with each of
the four promotion pieces, instantiating the theorem at f = 48, t = 56. -/
theorem c7_promotion_ids_distinct_witness :
    (48 : Int) / 8 = 6 ∧ (56 : Int) - 48 = 8 ∧
    (∃ pq pn pb pr : Int,
      get_move_idx ⟨48, 56, some Piece.queen⟩ = .ok (pq * 64 + 48) ∧
      get_move_idx ⟨48, 56, some Piece.knight⟩ = .ok (pn * 64 + 48) ∧
      get_move_idx ⟨48, 56, some Piece.bishop⟩ = .ok (pb * 64 + 48) ∧
      get_move_idx ⟨48, 56, some Piece.rook⟩ = .ok (pr * 64 + 48) ∧
      0 ≤ pq ∧ pq ≤ 55 ∧
      64 ≤ pn ∧ pn ≤ 72 ∧ 64 ≤ pb ∧ pb ≤ 72 ∧ 64 ≤ pr ∧ pr ≤ 72 ∧
      pn ≠ pb ∧ pn ≠ pr ∧ pb ≠ pr ∧
      pq * 64 + 48 ≠ pn * 64 + 48 ∧ pq * 64 + 48 ≠ pb * 64 + 48 ∧
      pq * 64 + 48 ≠ pr * 64 + 48 ∧ pn * 64 + 48 ≠ pb * 64 + 48 ∧
      pn * 64 + 48 ≠ pr * 64 + 48 ∧ pb * 64 + 48 ≠ pr * 64 + 48) :=
  ⟨by decide, by decide, c7_promotion_ids_distinct 48 56 (by decide) (Or.inl (by decide))⟩

/-- C2 (amended): on a terminal position, search returns immediately with
the position, tensor and statistics tables untouched, and its value is the
negation of the to-move reward computed by the code: 0 when the game is a
draw or when black is the winner (the Python truthiness test `if winner:`
conflates the black color False with the absence of a winner), and, for a
white winner, +1 when black is to move (the checkmate case) and -1 when
white is to move. -/
theorem c2_terminal_value_amended {Pos Tensor : Type} (g : RulesEngine Pos Tensor)
    (model : Tensor → (Int → ℚ) × ℚ) (c_puct : ℚ) (fuel : Nat) (pos : Pos)
    (s : Tensor) (st : MCTSState) (h : g.ended pos = true) :
    search g model c_puct fuel pos s st =
      ⟨.ok (if g.winner pos = some true then (if g.turn pos then -1 else 1) else 0),
        pos, s, st⟩ := by
  rw [search_unfold]
  by_cases hw : g.winner pos = some true
  · by_cases ht : g.turn pos = true
    · simp [searchTerminal, h, hw, ht]
    · have ht2 : g.turn pos = false := by simpa using ht
      simp [searchTerminal, h, hw, ht2]
  · simp [searchTerminal, h, hw]

/-- C2 (counterexample): a terminal position with white to move and black
the winner (white has just been checkmated). The claim demands the value -1
from the perspective of the player to move; the code returns 0, because the
black winner is falsy and falls into the draw branch. -/
def toyG2 : RulesEngine Nat Nat where
  ended := fun _ => true
  winner := fun _ => some false
  turn := fun _ => true
  zobrist_hash := fun p => p
  legal_moves := fun _ => []
  piece_at := fun _ _ => none
  push := fun p _ => p
  encode := fun p => p
  start := 0
  sqrtQ := fun _ => 0

/-- C2 (counterexample): search on the terminal position of toyG2 (white to
move, checkmated, black the winner) returns the value 0, not the -1 the
claim requires for the side to move that has just been checkmated. -/
theorem c2_terminal_value_counterexample :
    (search toyG2 toyModel 0 1 0 0 MCTSState.fresh).val = .ok 0 ∧
    ((Except.ok (0 : ℚ) : Except String ℚ) ≠ .ok (-1 : ℚ)) := by
  constructor
  · rw [search_unfold]
    simp [searchTerminal, toyG2]
  · simp only [ne_eq, Except.ok.injEq]
    norm_num

/-- C2 witness: the amended theorem applied to the concrete terminal
position of toyG2, whose winner is black, giving the value 0 and unchanged
search state. -/
theorem c2_terminal_value_amended_witness :
    search toyG2 toyModel 0 1 0 0 MCTSState.fresh = ⟨.ok 0, 0, 0, MCTSState.fresh⟩ := by
  have h := c2_terminal_value_amended toyG2 toyModel 0 1 0 0 MCTSState.fresh rfl
  simpa [toyG2] using h

/-- Invariant for C6: every Q entry lies in [-1, 1] and every N entry is
non-negative, across all hashes and actions. -/
def QInv (st : MCTSState) : Prop :=
  ∀ h a, (-1 ≤ st.Q h a ∧ st.Q h a ≤ 1) ∧ 0 ≤ st.N h a

/-- Bundled conclusion of the search induction: the invariant holds for the
final tables and any successfully returned value lies in [-1, 1]. -/
def GoodResult {Pos Tensor : Type} (r : SearchResult Pos Tensor) : Prop :=
  QInv r.st ∧ ∀ v, r.val = .ok v → -1 ≤ v ∧ v ≤ 1

theorem QInv_fresh : QInv MCTSState.fresh := by
  intro h a
  refine ⟨⟨?_, ?_⟩, ?_⟩ <;> norm_num [MCTSState.fresh]

theorem searchTerminal_parts {Pos Tensor : Type} (g : RulesEngine Pos Tensor)
    (pos : Pos) (s : Tensor) (st : MCTSState) :
    (searchTerminal g pos s st).st = st ∧ (searchTerminal g pos s st).pos = pos ∧
    (searchTerminal g pos s st).s = s ∧
    ((searchTerminal g pos s st).val = .ok 0 ∨ (searchTerminal g pos s st).val = .ok 1 ∨
      (searchTerminal g pos s st).val = .ok (-1)) := by
  unfold searchTerminal
  by_cases hw : g.winner pos = some true
  · cases hturn : g.turn pos with
    | true => simp [hw, hturn]
    | false => simp [hw, hturn]
  · simp [hw]

theorem searchTerminal_good {Pos Tensor : Type} (g : RulesEngine Pos Tensor)
    (pos : Pos) (s : Tensor) (st : MCTSState) (hst : QInv st) :
    GoodResult (searchTerminal g pos s st) := by
  obtain ⟨h1, -, -, h4⟩ := searchTerminal_parts g pos s st
  refine ⟨by rw [h1]; exact hst, ?_⟩
  intro v hv
  rcases h4 with h | h | h <;> rw [h] at hv <;> injection hv with hv <;> subst hv <;>
    constructor <;> norm_num

theorem backprop_QInv {st : MCTSState} (h2 : Nat) (a2 : Int) {v : ℚ}
    (hst : QInv st) (hv1 : -1 ≤ v) (hv2 : v ≤ 1) : QInv (backprop st h2 a2 v) := by
  intro h a
  obtain ⟨⟨hq1, hq2⟩, hn⟩ := hst h a
  obtain ⟨⟨hq1b, hq2b⟩, hnb⟩ := hst h2 a2
  simp only [backprop, putEntry]
  by_cases he : h = h2 ∧ a = a2
  · rw [if_pos he, if_pos he]
    have hpos : (0 : ℚ) < st.N h2 a2 + 1 := by linarith
    refine ⟨⟨?_, ?_⟩, by linarith⟩
    · rw [le_div_iff₀ hpos]
      nlinarith [mul_le_mul_of_nonneg_left hq1b hnb]
    · rw [div_le_one hpos]
      nlinarith [mul_le_mul_of_nonneg_left hq2b hnb]
  · rw [if_neg he, if_neg he]
    exact ⟨⟨hq1, hq2⟩, hn⟩

theorem searchBackprop_good {Pos Tensor : Type} (h : Nat) (a : Int)
    (r : SearchResult Pos Tensor) (hr : GoodResult r) :
    GoodResult (searchBackprop h a r) := by
  unfold searchBackprop
  cases hv : r.val with
  | error e =>
    exact ⟨hr.1, fun w hw => by simp at hw⟩
  | ok v =>
    obtain ⟨hv1, hv2⟩ := hr.2 v hv
    refine ⟨backprop_QInv h a hr.1 hv1 hv2, ?_⟩
    intro w hw
    simp only at hw
    injection hw with hw
    subst hw
    constructor <;> linarith

theorem searchExpand_good {Pos Tensor : Type} (g : RulesEngine Pos Tensor)
    (model : Tensor → (Int → ℚ) × ℚ)
    (hm : ∀ t2, -1 ≤ (model t2).2 ∧ (model t2).2 ≤ 1)
    (pos : Pos) (s : Tensor) (st : MCTSState) (hst : QInv st) :
    GoodResult (searchExpand g model pos s st) := by
  constructor
  · intro h a
    simp only [searchExpand, putRow]
    by_cases he : h = g.zobrist_hash pos
    · rw [if_pos he, if_pos he]
      refine ⟨⟨?_, ?_⟩, ?_⟩ <;> norm_num
    · rw [if_neg he, if_neg he]
      exact hst h a
  · intro v hv
    simp only [searchExpand] at hv
    injection hv with hv
    subst hv
    obtain ⟨h1, h2⟩ := hm s
    constructor <;> linarith

theorem searchChild_good {Pos Tensor : Type} (g : RulesEngine Pos Tensor)
    (rec : Pos → Tensor → MCTSState → SearchResult Pos Tensor)
    (hrec : ∀ p2 s2 st2, QInv st2 → GoodResult (rec p2 s2 st2))
    (h : Nat) (pos : Pos) (s : Tensor) (st : MCTSState) (hst : QInv st) (a : Int) :
    GoodResult (searchChild g rec h pos s st a) := by
  unfold searchChild
  cases hupd : update_game_state g pos a with
  | error e =>
    exact ⟨hst, fun v hv => by simp at hv⟩
  | ok ps =>
    obtain ⟨p2, s2⟩ := ps
    exact searchBackprop_good h a _ (hrec p2 s2 st hst)

theorem searchSelect_good {Pos Tensor : Type} (g : RulesEngine Pos Tensor) (c_puct : ℚ)
    (rec : Pos → Tensor → MCTSState → SearchResult Pos Tensor)
    (hrec : ∀ p2 s2 st2, QInv st2 → GoodResult (rec p2 s2 st2))
    (pos : Pos) (s : Tensor) (st : MCTSState) (hst : QInv st) :
    GoodResult (searchSelect g c_puct rec pos s st) := by
  unfold searchSelect
  cases hgen : generate_moves g pos with
  | error e =>
    exact ⟨hst, fun v hv => by simp at hv⟩
  | ok actions =>
    exact searchChild_good g rec hrec _ pos s st hst _

theorem search_good {Pos Tensor : Type} (g : RulesEngine Pos Tensor)
    (model : Tensor → (Int → ℚ) × ℚ) (c_puct : ℚ)
    (hm : ∀ t2, -1 ≤ (model t2).2 ∧ (model t2).2 ≤ 1) :
    ∀ (fuel : Nat) (pos : Pos) (s : Tensor) (st : MCTSState), QInv st →
      GoodResult (search g model c_puct fuel pos s st) := by
  intro fuel
  induction fuel with
  | zero =>
    intro pos s st hst
    rw [search_unfold]
    cases hend : g.ended pos with
    | true =>
      simp only [if_true]
      exact searchTerminal_good g pos s st hst
    | false =>
      simp only [Bool.false_eq_true, if_false]
      by_cases hvis : g.zobrist_hash pos ∈ st.visited
      · rw [if_pos hvis]
        exact ⟨hst, fun v hv => by simp at hv⟩
      · rw [if_neg hvis]
        exact searchExpand_good g model hm pos s st hst
  | succ fuel ih =>
    intro pos s st hst
    rw [search_unfold]
    cases hend : g.ended pos with
    | true =>
      simp only [if_true]
      exact searchTerminal_good g pos s st hst
    | false =>
      simp only [Bool.false_eq_true, if_false]
      by_cases hvis : g.zobrist_hash pos ∈ st.visited
      · rw [if_pos hvis]
        exact searchSelect_good g c_puct _ (fun p2 s2 st2 h2 => ih p2 s2 st2 h2) pos s st hst
      · rw [if_neg hvis]
        exact searchExpand_good g model hm pos s st hst

/-- C6: across any number of successive search calls (threaded exactly as
the simulation loop of self_play threads them), every Q entry of every
node row stays within [-1, 1], provided every value estimate of the model
lies in [-1, 1] (terminal rewards are the constants 0, 1, -1 and lie in
that interval by construction). The backpropagated update
Q[a] = (N[a] * Q[a] + v) / (N[a] + 1) is a convex combination of a bounded
Q entry and a bounded child value, so the bound is preserved. -/
theorem c6_q_bounded {Pos Tensor : Type} (g : RulesEngine Pos Tensor)
    (model : Tensor → (Int → ℚ) × ℚ) (c_puct : ℚ) (fuel : Nat)
    (hm : ∀ t2, -1 ≤ (model t2).2 ∧ (model t2).2 ≤ 1)
    (n : Nat) (pos : Pos) (s : Tensor) (st : MCTSState) (hst : QInv st) :
    ∀ h a, -1 ≤ (searchIter g model c_puct fuel n pos s st).st.Q h a ∧
      (searchIter g model c_puct fuel n pos s st).st.Q h a ≤ 1 := by
  induction n generalizing pos s st with
  | zero =>
    intro h a
    exact (hst h a).1
  | succ n ihn =>
    intro h a
    have hg := search_good g model c_puct hm fuel pos s st hst
    cases hv : (search g model c_puct fuel pos s st).val with
    | error e =>
      simp only [searchIter, hv]
      exact (hg.1 h a).1
    | ok v =>
      simp only [searchIter, hv]
      exact ihn _ _ _ hg.1 h a

/-- C6 witness: after two searches from the toy starting position with the
bounded toy model, the Q entry of the root hash at action 460 (the only
action ever selected) lies in [-1, 1]. -/
theorem c6_q_bounded_witness :
    -1 ≤ (searchIter toyG toyModel 0 1 2 0 0 MCTSState.fresh).st.Q 0 460 ∧
      (searchIter toyG toyModel 0 1 2 0 0 MCTSState.fresh).st.Q 0 460 ≤ 1 := by
  have hm : ∀ t2 : Nat, -1 ≤ (toyModel t2).2 ∧ (toyModel t2).2 ≤ 1 := by
    intro t2
    constructor <;> norm_num [toyModel]
  exact c6_q_bounded toyG toyModel 0 1 hm 2 0 0 MCTSState.fresh QInv_fresh 0 460

theorem searchBackprop_pos {Pos Tensor : Type} (h : Nat) (a : Int)
    (r : SearchResult Pos Tensor) : (searchBackprop h a r).pos = r.pos := by
  unfold searchBackprop
  cases hv : r.val <;> simp

theorem update_game_state_ok {Pos Tensor : Type} (g : RulesEngine Pos Tensor)
    (pos : Pos) (a : Int) (pos2 : Pos) (s2 : Tensor)
    (h : update_game_state g pos a = .ok (pos2, s2)) :
    ∃ m, get_move (g.piece_at pos) a = .ok m ∧ pos2 = g.push pos m ∧
      s2 = g.encode (g.push pos m) := by
  unfold update_game_state at h
  cases hg : get_move (g.piece_at pos) a with
  | error e =>
    rw [hg] at h
    cases h
  | ok m =>
    rw [hg] at h
    simp only [positionIsLegalTruthy, Bool.not_true, Bool.false_eq_true, if_false] at h
    injection h with h
    injection h with h1 h2
    exact ⟨m, rfl, h1.symm, h2.symm⟩

theorem searchChild_ply {Pos Tensor : Type} (g : RulesEngine Pos Tensor)
    (rec : Pos → Tensor → MCTSState → SearchResult Pos Tensor) (ply : Pos → Nat)
    (hply : ∀ p m, ply p ≤ ply (g.push p m))
    (hrec : ∀ p2 s2 st2, ply p2 ≤ ply (rec p2 s2 st2).pos)
    (h : Nat) (pos : Pos) (s : Tensor) (st : MCTSState) (a : Int) :
    ply pos ≤ ply (searchChild g rec h pos s st a).pos := by
  unfold searchChild
  cases hupd : update_game_state g pos a with
  | error e => exact le_rfl
  | ok ps =>
    obtain ⟨p2, s2⟩ := ps
    obtain ⟨m, hm1, hm2, hm3⟩ := update_game_state_ok g pos a p2 s2 hupd
    rw [searchBackprop_pos]
    exact le_trans (hm2 ▸ hply pos m) (hrec p2 s2 st)

theorem searchSelect_ply {Pos Tensor : Type} (g : RulesEngine Pos Tensor) (c_puct : ℚ)
    (rec : Pos → Tensor → MCTSState → SearchResult Pos Tensor) (ply : Pos → Nat)
    (hply : ∀ p m, ply p ≤ ply (g.push p m))
    (hrec : ∀ p2 s2 st2, ply p2 ≤ ply (rec p2 s2 st2).pos)
    (pos : Pos) (s : Tensor) (st : MCTSState) :
    ply pos ≤ ply (searchSelect g c_puct rec pos s st).pos := by
  unfold searchSelect
  cases hgen : generate_moves g pos with
  | error e => exact le_rfl
  | ok actions => exact searchChild_ply g rec ply hply hrec _ pos s st _

theorem search_ply_mono {Pos Tensor : Type} (g : RulesEngine Pos Tensor)
    (model : Tensor → (Int → ℚ) × ℚ) (c_puct : ℚ) (ply : Pos → Nat)
    (hply : ∀ p m, ply p ≤ ply (g.push p m)) :
    ∀ (fuel : Nat) (pos : Pos) (s : Tensor) (st : MCTSState),
      ply pos ≤ ply (search g model c_puct fuel pos s st).pos := by
  intro fuel
  induction fuel with
  | zero =>
    intro pos s st
    rw [search_unfold]
    cases hend : g.ended pos with
    | true =>
      simp only [if_true]
      obtain ⟨-, h2, -, -⟩ := searchTerminal_parts g pos s st
      rw [h2]
    | false =>
      simp only [Bool.false_eq_true, if_false]
      by_cases hvis : g.zobrist_hash pos ∈ st.visited
      · rw [if_pos hvis]
      · rw [if_neg hvis]
        exact le_rfl
  | succ fuel ih =>
    intro pos s st
    rw [search_unfold]
    cases hend : g.ended pos with
    | true =>
      simp only [if_true]
      obtain ⟨-, h2, -, -⟩ := searchTerminal_parts g pos s st
      rw [h2]
    | false =>
      simp only [Bool.false_eq_true, if_false]
      by_cases hvis : g.zobrist_hash pos ∈ st.visited
      · rw [if_pos hvis]
        exact searchSelect_ply g c_puct _ ply hply (fun p2 s2 st2 => ih p2 s2 st2) pos s st
      · rw [if_neg hvis]
        exact le_rfl

theorem searchChild_ok_ply {Pos Tensor : Type} (g : RulesEngine Pos Tensor)
    (rec : Pos → Tensor → MCTSState → SearchResult Pos Tensor) (ply : Pos → Nat)
    (hply : ∀ p m, ply p < ply (g.push p m))
    (hrec : ∀ p2 s2 st2, ply p2 ≤ ply (rec p2 s2 st2).pos)
    (h : Nat) (pos : Pos) (s : Tensor) (st : MCTSState) (a : Int) (v : ℚ)
    (hok : (searchChild g rec h pos s st a).val = .ok v) :
    ply pos < ply (searchChild g rec h pos s st a).pos := by
  unfold searchChild at hok ⊢
  cases hupd : update_game_state g pos a with
  | error e =>
    simp only [hupd] at hok
    simp at hok
  | ok ps =>
    obtain ⟨p2, s2⟩ := ps
    obtain ⟨m, hm1, hm2, hm3⟩ := update_game_state_ok g pos a p2 s2 hupd
    rw [searchBackprop_pos]
    exact lt_of_lt_of_le (hm2 ▸ hply pos m) (hrec p2 s2 st)

theorem searchSelect_ok_ply {Pos Tensor : Type} (g : RulesEngine Pos Tensor) (c_puct : ℚ)
    (rec : Pos → Tensor → MCTSState → SearchResult Pos Tensor) (ply : Pos → Nat)
    (hply : ∀ p m, ply p < ply (g.push p m))
    (hrec : ∀ p2 s2 st2, ply p2 ≤ ply (rec p2 s2 st2).pos)
    (pos : Pos) (s : Tensor) (st : MCTSState) (v : ℚ)
    (hok : (searchSelect g c_puct rec pos s st).val = .ok v) :
    ply pos < ply (searchSelect g c_puct rec pos s st).pos := by
  unfold searchSelect at hok ⊢
  cases hgen : generate_moves g pos with
  | error e =>
    simp only [hgen] at hok
    simp at hok
  | ok actions =>
    simp only [hgen] at hok ⊢
    exact searchChild_ok_ply g rec ply hply hrec _ pos s st _ v hok

/-- C10: a successful search call on an expanded, non-terminal position
advances its position argument and does not restore it: for any ply
measure that strictly increases under push, the position returned by the
call is strictly deeper than the position it received, hence a different
position; and the simulation loop hands exactly this returned position
(with the returned tensor and tables) to the next of the num_sims search
calls, so the successive calls of one self_play ply do not all start at
the root. -/
theorem c10_search_advances_position {Pos Tensor : Type} (g : RulesEngine Pos Tensor)
    (model : Tensor → (Int → ℚ) × ℚ) (c_puct : ℚ) (ply : Pos → Nat)
    (hply : ∀ p m, ply p < ply (g.push p m))
    (fuel : Nat) (pos : Pos) (s : Tensor) (st : MCTSState)
    (hend : g.ended pos = false) (hvis : g.zobrist_hash pos ∈ st.visited)
    (v : ℚ) (hok : (search g model c_puct fuel pos s st).val = .ok v) (n : Nat) :
    ply pos < ply (search g model c_puct fuel pos s st).pos ∧
    (search g model c_puct fuel pos s st).pos ≠ pos ∧
    searchIter g model c_puct fuel (n + 1) pos s st =
      searchIter g model c_puct fuel n (search g model c_puct fuel pos s st).pos
        (search g model c_puct fuel pos s st).s (search g model c_puct fuel pos s st).st := by
  have key : ply pos < ply (search g model c_puct fuel pos s st).pos := by
    rw [search_unfold] at hok ⊢
    simp only [hend, Bool.false_eq_true, if_false] at hok ⊢
    rw [if_pos hvis] at hok ⊢
    cases fuel with
    | zero => simp at hok
    | succ fuel2 =>
      exact searchSelect_ok_ply g c_puct _ ply hply
        (fun p2 s2 st2 =>
          search_ply_mono g model c_puct ply (fun p m => le_of_lt (hply p m)) fuel2 p2 s2 st2)
        pos s st v hok
  refine ⟨key, ?_, ?_⟩
  · intro heq
    exact absurd (heq ▸ key) (lt_irrefl _)
  · simp only [searchIter, hok]

/-- Search state with the toy root hash already expanded (visited with
all-zero rows), as left by a first search call from a fresh state up to
the prior row contents, which play no role in the advance property. -/
def stVisited : MCTSState :=
  { Q := fun _ _ => 0, N := fun _ _ => 0, P := fun _ _ => 0, visited := [0] }

/-- C10 witness: the theorem applied to the toy game at the expanded root,
with the identity ply measure; the single search call returns position 1,
not the root 0, and the next simulation of the loop starts there. -/
theorem c10_search_advances_position_witness :
    (fun p : Nat => p) 0 < (fun p : Nat => p) (search toyG toyModel 0 1 0 0 stVisited).pos ∧
    (search toyG toyModel 0 1 0 0 stVisited).pos ≠ 0 ∧
    searchIter toyG toyModel 0 1 (0 + 1) 0 0 stVisited =
      searchIter toyG toyModel 0 1 0 (search toyG toyModel 0 1 0 0 stVisited).pos
        (search toyG toyModel 0 1 0 0 stVisited).s (search toyG toyModel 0 1 0 0 stVisited).st := by
  have hok : (search toyG toyModel 0 1 0 0 stVisited).val = .ok (-1) := rfl
  exact c10_search_advances_position toyG toyModel 0 (fun p => p)
    (fun p m => by simp [toyG]) 1 0 0 stVisited rfl (by simp [stVisited, toyG]) (-1) hok 0

/-- C5: the training examples returned by self_play do not hold the tensor
of the ply at which they were recorded: every Python example aliases the
single mutable tensor object, so each returned example carries the final
tensor. In the toy episode the only example is recorded at ply 0, where
the tensor encoding of the position is 0, yet the returned example holds
tensor 1, the encoding of the final position (and reward 1). -/
theorem c5_examples_alias_final_tensor :
    (self_play toyG toyModel toyChoice 0 2 1 1).map (List.map fun e => (e.1, e.2.2)) =
      .ok [(1, 1)] ∧
    toyG.encode 0 = 0 ∧ (0 : Nat) ≠ 1 :=
  ⟨rfl, rfl, by decide⟩

theorem rowSum_support_two (f : Int → ℚ) (i j : Nat) (hi : i < NUM_ACTIONS)
    (hj : j < NUM_ACTIONS) (hij : i ≠ j)
    (hf : ∀ a : Int, a ≠ (i : Int) → a ≠ (j : Int) → f a = 0) :
    rowSum f = f (i : Int) + f (j : Int) := by
  unfold rowSum
  have hsub : ({i, j} : Finset ℕ) ⊆ Finset.range NUM_ACTIONS := by
    intro x hx
    simp only [Finset.mem_insert, Finset.mem_singleton] at hx
    rcases hx with rfl | rfl <;> simp [Finset.mem_range, hi, hj]
  have hzero : ∀ x ∈ Finset.range NUM_ACTIONS, x ∉ ({i, j} : Finset ℕ) → f (x : Int) = 0 := by
    intro x hx hnx
    simp only [Finset.mem_insert, Finset.mem_singleton] at hnx
    push_neg at hnx
    exact hf _ (by exact_mod_cast hnx.1) (by exact_mod_cast hnx.2)
  rw [← Finset.sum_subset hsub hzero, Finset.sum_pair hij]

theorem rowSumAbs_eq (f : Int → ℚ) : rowSumAbs f = rowSum (fun a => |f a|) := rfl

/-- Rules engine with two legal moves at every position: the pawn pushes
e2e3 (action 460) and f2f3 (action 461). -/
def toyG3 : RulesEngine Nat Nat :=
  { toyG with legal_moves := fun _ => [⟨12, 20, none⟩, ⟨13, 21, none⟩] }

/-- Expanded root state used for C3: the root hash 0 has visit counts
N = 3 at action 460 and N = 1 at action 461 (four completed searches) and
a uniform prior of 1/2 on each of the two legal actions. -/
def st3 : MCTSState :=
  { Q := fun _ _ => 0
    N := fun h a => if h = 0 ∧ a = 460 then 3 else if h = 0 ∧ a = 461 then 1 else 0
    P := fun h a => if h = 0 ∧ (a = 460 ∨ a = 461) then 1/2 else 0
    visited := [0] }

/-- C3: get_policy normalizes the prior row P, not the visit counts: at
the st3 root (N = (3,1), P uniform) it returns probability 1/2 for each
legal action, while the normalized visit counts N[a]/sum(N) mandated by
the claim are 3/4 and 1/4. -/
theorem c3_policy_uses_prior_not_visits :
    (get_policy toyG3 st3 0).map (fun pi => (pi 460, pi 461)) = .ok (1/2, 1/2) ∧
    st3.N 0 460 / rowSum (st3.N 0) = 3/4 ∧
    st3.N 0 461 / rowSum (st3.N 0) = 1/4 ∧
    ((3 : ℚ)/4 ≠ 1/2) ∧ ((1 : ℚ)/4 ≠ 1/2) := by
  have hN : rowSum (st3.N 0) = 4 := by
    rw [rowSum_support_two (st3.N 0) 460 461 (by norm_num [NUM_ACTIONS])
      (by norm_num [NUM_ACTIONS]) (by norm_num)
      (by intro a h1 h2; norm_cast at h1 h2; simp only [st3]; norm_num [h1, h2])]
    norm_num [st3]
  have hgen : generate_moves toyG3 0 = .ok [460, 461] := rfl
  refine ⟨?_, ?_, ?_, by norm_num, by norm_num⟩
  · have hh : toyG3.zobrist_hash 0 = 0 := rfl
    simp only [get_policy, hh, hgen, Except.map]
    simp only [Except.ok.injEq, Prod.mk.injEq]
    have hnorm : rowSumAbs (fun a : Int =>
        if a ∈ [(460 : Int), 461] then st3.P 0 a / rowSum (st3.N 0) else 0) = 1/4 := by
      rw [rowSumAbs_eq]
      rw [rowSum_support_two _ 460 461 (by norm_num [NUM_ACTIONS])
        (by norm_num [NUM_ACTIONS]) (by norm_num)
        (by intro a h1 h2; norm_cast at h1 h2; simp [h1, h2])]
      rw [hN]
      norm_num [st3]
      rw [abs_of_nonneg (by norm_num : (0:ℚ) ≤ 1/8)]
      norm_num
    rw [hnorm, hN]
    norm_num [st3]
  · rw [hN]
    norm_num [st3]
  · rw [hN]
    norm_num [st3]

set_option maxHeartbeats 1000000 in
theorem get_move_dir_ne (a b : Int) (e : String)
    (h : get_move_dir a b = .error e) : e ≠ "num_sims must be at least 2" := by
  simp only [get_move_dir] at h
  split_ifs at h <;>
    first
      | (subst h; decide)
      | (injection h with h2; subst h2; decide)
      | simp at h

theorem underpromotionEncode_ne (d : RayDir) (p : Piece) (fs : Int) (e : String)
    (h : underpromotionEncode d p fs = .error e) : e ≠ "num_sims must be at least 2" := by
  cases d <;> simp only [underpromotionEncode] at h <;>
    first
      | (subst h; decide)
      | (injection h with h2; subst h2; decide)
      | simp at h

theorem get_move_idx_ne (m : Move) (e : String)
    (h : get_move_idx m = .error e) : e ≠ "num_sims must be at least 2" := by
  obtain ⟨mf, mt, mp⟩ := m
  unfold get_move_idx at h
  cases hd : get_move_dir mf mt with
  | error e2 =>
    rw [hd] at h
    simp only [Except.error.injEq] at h
    subst h
    exact get_move_dir_ne mf mt e2 hd
  | ok od =>
    rw [hd] at h
    match od with
    | none =>
      simp only [Except.error.injEq] at h
      subst h
      decide
    | some (.knight d) => simp at h
    | some (.ray d) =>
      simp only at h
      cases mp with
      | none => simp [rayEncode] at h
      | some p =>
        simp only at h
        split_ifs at h with hq
        · exact underpromotionEncode_ne d p mf e h
        · simp [rayEncode] at h

theorem encodeMoves_ne (l : List Move) (e : String)
    (h : encodeMoves l = .error e) : e ≠ "num_sims must be at least 2" := by
  induction l with
  | nil => simp [encodeMoves] at h
  | cons m rest ih =>
    unfold encodeMoves at h
    cases hm : get_move_idx m with
    | error e2 =>
      rw [hm] at h
      simp only [Except.error.injEq] at h
      subst h
      exact get_move_idx_ne m e2 hm
    | ok i =>
      rw [hm] at h
      cases hr : encodeMoves rest with
      | error e2 =>
        rw [hr] at h
        simp only [Except.error.injEq] at h
        subst h
        exact ih hr
      | ok is =>
        rw [hr] at h
        simp at h

theorem generate_moves_ne {Pos Tensor : Type} (g : RulesEngine Pos Tensor) (pos : Pos)
    (e : String) (h : generate_moves g pos = .error e) :
    e ≠ "num_sims must be at least 2" := by
  unfold generate_moves at h
  exact encodeMoves_ne _ e h

theorem get_move_ne (pa : Int → Option Piece) (idx : Int) (e : String)
    (h : get_move pa idx = .error e) : e ≠ "num_sims must be at least 2" := by
  simp only [get_move] at h
  split_ifs at h <;>
    first
      | (subst h; decide)
      | (injection h with h2; subst h2; decide)
      | simp at h
      | (cases hp : pa (idx % 64) with
          | none =>
            simp only [hp] at h
            injection h with h2
            subst h2
            decide
          | some p =>
            simp only [hp] at h
            split_ifs at h <;> simp at h)

theorem update_game_state_ne {Pos Tensor : Type} (g : RulesEngine Pos Tensor) (pos : Pos)
    (a : Int) (e : String) (h : update_game_state g pos a = .error e) :
    e ≠ "num_sims must be at least 2" := by
  unfold update_game_state at h
  cases hm : get_move (g.piece_at pos) a with
  | error e2 =>
    rw [hm] at h
    simp only [Except.error.injEq] at h
    subst h
    exact get_move_ne _ a e2 hm
  | ok m =>
    rw [hm] at h
    simp [positionIsLegalTruthy] at h

theorem searchTerminal_ne {Pos Tensor : Type} (g : RulesEngine Pos Tensor)
    (pos : Pos) (s : Tensor) (st : MCTSState) (e : String)
    (h : (searchTerminal g pos s st).val = .error e) : False := by
  obtain ⟨-, -, -, h4⟩ := searchTerminal_parts g pos s st
  rcases h4 with h2 | h2 | h2 <;> rw [h2] at h <;> cases h

theorem searchBackprop_ne {Pos Tensor : Type} (h : Nat) (a : Int)
    (r : SearchResult Pos Tensor)
    (hr : ∀ e2, r.val = .error e2 → e2 ≠ "num_sims must be at least 2") (e : String)
    (he : (searchBackprop h a r).val = .error e) : e ≠ "num_sims must be at least 2" := by
  unfold searchBackprop at he
  cases hv : r.val with
  | error e2 =>
    rw [hv] at he
    simp only [Except.error.injEq] at he
    subst he
    exact hr e2 hv
  | ok v =>
    rw [hv] at he
    simp at he

theorem searchChild_ne {Pos Tensor : Type} (g : RulesEngine Pos Tensor)
    (rec : Pos → Tensor → MCTSState → SearchResult Pos Tensor)
    (hrec : ∀ p2 s2 st2 e2, (rec p2 s2 st2).val = .error e2 →
      e2 ≠ "num_sims must be at least 2")
    (h : Nat) (pos : Pos) (s : Tensor) (st : MCTSState) (a : Int) (e : String)
    (he : (searchChild g rec h pos s st a).val = .error e) :
    e ≠ "num_sims must be at least 2" := by
  unfold searchChild at he
  cases hupd : update_game_state g pos a with
  | error e2 =>
    rw [hupd] at he
    simp only [Except.error.injEq] at he
    subst he
    exact update_game_state_ne g pos a e2 hupd
  | ok ps =>
    obtain ⟨p2, s2⟩ := ps
    rw [hupd] at he
    exact searchBackprop_ne h a _ (fun e2 hv => hrec p2 s2 st e2 hv) e he

theorem searchSelect_ne {Pos Tensor : Type} (g : RulesEngine Pos Tensor) (c_puct : ℚ)
    (rec : Pos → Tensor → MCTSState → SearchResult Pos Tensor)
    (hrec : ∀ p2 s2 st2 e2, (rec p2 s2 st2).val = .error e2 →
      e2 ≠ "num_sims must be at least 2")
    (pos : Pos) (s : Tensor) (st : MCTSState) (e : String)
    (he : (searchSelect g c_puct rec pos s st).val = .error e) :
    e ≠ "num_sims must be at least 2" := by
  unfold searchSelect at he
  cases hgen : generate_moves g pos with
  | error e2 =>
    rw [hgen] at he
    simp only [Except.error.injEq] at he
    subst he
    exact generate_moves_ne g pos e2 hgen
  | ok actions =>
    rw [hgen] at he
    exact searchChild_ne g rec hrec _ pos s st _ e he

theorem search_ne {Pos Tensor : Type} (g : RulesEngine Pos Tensor)
    (model : Tensor → (Int → ℚ) × ℚ) (c_puct : ℚ) :
    ∀ (fuel : Nat) (pos : Pos) (s : Tensor) (st : MCTSState) (e : String),
      (search g model c_puct fuel pos s st).val = .error e →
      e ≠ "num_sims must be at least 2" := by
  intro fuel
  induction fuel with
  | zero =>
    intro pos s st e he
    rw [search_unfold] at he
    cases hend : g.ended pos with
    | true =>
      simp only [hend, if_true] at he
      exact absurd he (fun hx => searchTerminal_ne g pos s st e hx)
    | false =>
      simp only [hend, Bool.false_eq_true, if_false] at he
      by_cases hvis : g.zobrist_hash pos ∈ st.visited
      · rw [if_pos hvis] at he
        simp only [Except.error.injEq] at he
        subst he
        decide
      · rw [if_neg hvis] at he
        simp [searchExpand] at he
  | succ fuel ih =>
    intro pos s st e he
    rw [search_unfold] at he
    cases hend : g.ended pos with
    | true =>
      simp only [hend, if_true] at he
      exact absurd he (fun hx => searchTerminal_ne g pos s st e hx)
    | false =>
      simp only [hend, Bool.false_eq_true, if_false] at he
      by_cases hvis : g.zobrist_hash pos ∈ st.visited
      · rw [if_pos hvis] at he
        exact searchSelect_ne g c_puct _ (fun p2 s2 st2 e2 hv => ih p2 s2 st2 e2 hv)
          pos s st e he
      · rw [if_neg hvis] at he
        simp [searchExpand] at he

theorem searchIter_ne {Pos Tensor : Type} (g : RulesEngine Pos Tensor)
    (model : Tensor → (Int → ℚ) × ℚ) (c_puct : ℚ) (fuel : Nat) :
    ∀ (n : Nat) (pos : Pos) (s : Tensor) (st : MCTSState) (e : String),
      (searchIter g model c_puct fuel n pos s st).err = some e →
      e ≠ "num_sims must be at least 2" := by
  intro n
  induction n with
  | zero =>
    intro pos s st e he
    simp [searchIter] at he
  | succ n ih =>
    intro pos s st e he
    simp only [searchIter] at he
    cases hv : (search g model c_puct fuel pos s st).val with
    | error e2 =>
      rw [hv] at he
      simp only [Option.some.injEq] at he
      subst he
      exact search_ne g model c_puct fuel pos s st e2 hv
    | ok v =>
      rw [hv] at he
      exact ih _ _ _ e he

theorem get_policy_ne {Pos Tensor : Type} (g : RulesEngine Pos Tensor)
    (st : MCTSState) (pos : Pos) (e : String)
    (h : get_policy g st pos = .error e) : e ≠ "num_sims must be at least 2" := by
  unfold get_policy at h
  cases hgen : generate_moves g pos with
  | error e2 =>
    rw [hgen] at h
    simp only [Except.error.injEq] at h
    subst h
    exact generate_moves_ne g pos e2 hgen
  | ok legal =>
    rw [hgen] at h
    simp at h

theorem selfPlayLoop_ne {Pos Tensor : Type} (g : RulesEngine Pos Tensor)
    (model : Tensor → (Int → ℚ) × ℚ) (choice : (Int → ℚ) → Int) (c_puct : ℚ)
    (num_sims : Nat) (fuel : Nat) :
    ∀ (plyFuel : Nat) (pos : Pos) (s : Tensor) (st : MCTSState)
      (exs : List ((Int → ℚ) × Bool)) (e : String),
      selfPlayLoop g model choice c_puct num_sims fuel plyFuel pos s st exs = .error e →
      e ≠ "num_sims must be at least 2" := by
  intro plyFuel
  induction plyFuel with
  | zero =>
    intro pos s st exs e he
    simp only [selfPlayLoop, Except.error.injEq] at he
    subst he
    decide
  | succ plyFuel ih =>
    intro pos s st exs e he
    simp only [selfPlayLoop] at he
    cases hit : (searchIter g model c_puct fuel num_sims pos s st).err with
    | some e2 =>
      simp only [hit, Except.error.injEq] at he
      subst he
      exact searchIter_ne g model c_puct fuel num_sims pos s st e2 hit
    | none =>
      simp only [hit] at he
      cases hpi : get_policy g (searchIter g model c_puct fuel num_sims pos s st).st pos with
      | error e2 =>
        simp only [hpi, Except.error.injEq] at he
        subst he
        exact get_policy_ne g _ pos e2 hpi
      | ok pi =>
        simp only [hpi] at he
        cases hupd : update_game_state g pos (choice pi) with
        | error e2 =>
          rw [hupd] at he
          simp only [Except.error.injEq] at he
          subst he
          exact update_game_state_ne g pos _ e2 hupd
        | ok ps =>
          obtain ⟨pos2, s2⟩ := ps
          simp only [hupd] at he
          by_cases hend : g.ended pos2 = true
          · rw [if_pos hend] at he
            simp at he
          · rw [if_neg hend] at he
            exact ih pos2 s2 _ _ e he

/-- C8: self_play with num_sims below 2 returns the configuration
ValueError immediately (before any game state, search state or simulation
is created: the guard is the first statement and nothing else is
evaluated), and with num_sims at least 2 that configuration error is never
raised: no other error path of the episode produces its message. -/
theorem c8_num_sims_guard {Pos Tensor : Type} (g : RulesEngine Pos Tensor)
    (model : Tensor → (Int → ℚ) × ℚ) (choice : (Int → ℚ) → Int) (c_puct : ℚ)
    (fuel plyFuel : Nat) (n : Int) :
    (n < 2 → self_play g model choice c_puct n fuel plyFuel =
      .error "num_sims must be at least 2") ∧
    (2 ≤ n → self_play g model choice c_puct n fuel plyFuel ≠
      .error "num_sims must be at least 2") := by
  constructor
  · intro hn
    unfold self_play
    rw [if_pos hn]
  · intro hn heq
    simp only [self_play] at heq
    rw [if_neg (by omega)] at heq
    cases hl : selfPlayLoop g model choice c_puct n.toNat fuel plyFuel
        (init_game_state g).1 (init_game_state g).2 MCTSState.fresh [] with
    | error e =>
      rw [hl] at heq
      simp only [Except.error.injEq] at heq
      exact selfPlayLoop_ne g model choice c_puct n.toNat fuel plyFuel
        (init_game_state g).1 (init_game_state g).2 MCTSState.fresh [] e hl heq
    | ok out =>
      rw [hl] at heq
      simp at heq

/-- C8 witness: on the toy instance, num_sims 1 is rejected with the
configuration error and num_sims 2 does not produce it. -/
theorem c8_num_sims_guard_witness :
    self_play toyG toyModel toyChoice 0 1 1 1 = .error "num_sims must be at least 2" ∧
    self_play toyG toyModel toyChoice 0 2 1 1 ≠ .error "num_sims must be at least 2" := by
  constructor
  · exact (c8_num_sims_guard toyG toyModel toyChoice 0 1 1 1).1 (by norm_num)
  · exact (c8_num_sims_guard toyG toyModel toyChoice 0 1 1 2).2 (by norm_num)
